/-
Verification of the windowed-buffer allocator (`common/alloc/buffer.go`).

The embedding models a Go `Buffer` value as a record holding:
  * `head`    — the contents of the original backing array (`b.head`), whose
                length is the BackingStore capacity `C`;
  * `aliased` — whether `b.Value` currently points into `head` (Go's `append`
                re-backs the slice with a fresh array once the capacity is
                exceeded; slicing expressions on `b.head` re-alias it);
  * `sep`     — the contents of the separate backing array of `b.Value` when
                it no longer aliases `head` (ignored while `aliased = true`);
  * `vStart`, `vLen` — start index and length of the `b.Value` slice inside
                its backing array; the slice capacity is
                `(backing array length) - vStart`, as all slices here are
                produced by two-index slicing expressions;
  * `offset`  — the Go `offset : int` field.  In every reachable state of
                this code the field is non-negative (it is initialised to 16,
                guarded in `SliceBack`, and only ever incremented elsewhere),
                so it is carried as a `Nat` and the source's
                `newoffset := b.offset - offset; if newoffset < 0` check
                becomes the equivalent `b.offset < k` test.

Bytes are modelled as `Nat` (their values are immaterial to the properties).
A Go panic is modelled as an `Except.error`: `Err.negativeOffset` is the
`panic("Negative buffer offset.")` in `SliceBack` (the spec's
`HeadroomExhausted`), and `Err.sliceBounds` is the Go runtime's
slice-bounds-out-of-range panic raised by a slicing expression.
-/
import Mathlib

set_option autoImplicit false

/-- Failure modes of the buffer operations. `negativeOffset` is the
`"Negative buffer offset."` panic of `SliceBack` (spec: `HeadroomExhausted`);
`sliceBounds` is a Go runtime slice-bounds panic. -/
inductive Err where
  | negativeOffset
  | sliceBounds
deriving DecidableEq, Repr

/-- The source constant `defaultOffset`: the 16-byte reserved headroom. -/
def defaultOffset : Nat := 16

/-- State of a live Go `Buffer` (see the header comment for the encoding). -/
structure Buffer where
  head : List Nat
  aliased : Bool
  sep : List Nat
  vStart : Nat
  vLen : Nat
  offset : Nat
deriving DecidableEq, Repr

/-- Contents of the array currently backing `b.Value`. -/
def Buffer.backing (b : Buffer) : List Nat :=
  if b.aliased then b.head else b.sep

/-- Go `cap(b.Value)`: backing-array length minus the slice's start. -/
def Buffer.vCap (b : Buffer) : Nat :=
  b.backing.length - b.vStart

/-- The bytes visible through `b.Value` (the window's content). -/
def Buffer.window (b : Buffer) : List Nat :=
  (b.backing.drop b.vStart).take b.vLen

/-- Overwrite `arr[i ...]` with `data` in place (used for Go `copy` and for
in-place `append` writes; every use satisfies `i + data.length ≤ arr.length`,
so the array length is preserved). -/
def storeWrite (arr : List Nat) (i : Nat) (data : List Nat) : List Nat :=
  arr.take i ++ data ++ arr.drop (i + data.length)

/-- Go `CreateBuffer(container, ...)`: `head := container`,
`Value := head[defaultOffset:]`, `offset := defaultOffset`.
(The source presumes `defaultOffset ≤ len(container)`; all theorems carry
that bound.)  The `pool` field is modelled separately in `BufferRef`. -/
def CreateBuffer (container : List Nat) : Buffer :=
  { head := container
    aliased := true
    sep := []
    vStart := defaultOffset
    vLen := container.length - defaultOffset
    offset := defaultOffset }

/-- Source `Clear`: `b.offset = defaultOffset; b.Value = b.head[b.offset:b.offset]`. -/
def Buffer.Clear (b : Buffer) : Buffer :=
  { b with aliased := true, vStart := defaultOffset, vLen := 0, offset := defaultOffset }

/-- Source `Reset`: `b.offset = defaultOffset; b.Value = b.head`. -/
def Buffer.Reset (b : Buffer) : Buffer :=
  { b with aliased := true, vStart := 0, vLen := b.head.length, offset := defaultOffset }

/-- Modelled from the spec (the growth rule lives in the Go runtime, not in
this repository): `append` re-backs with "amortized doubling", the new
capacity covering the needed length.  No theorem depends on its exact value,
only on `need ≤ growCap old need`. -/
def growCap (oldCap need : Nat) : Nat :=
  max need (2 * oldCap)

/-- Replace the contents of the array currently backing `b.Value`: a Go
write through the slice mutates `head` while the slice aliases it, and the
grown separate array afterwards. -/
def Buffer.setBacking (b : Buffer) (arr : List Nat) : Buffer :=
  if b.aliased then { b with head := arr } else { b with sep := arr }

/-- Source `Append`: `b.Value = append(b.Value, data...)`.  If the new length fits
in `cap(b.Value)` the bytes are written in place into the current backing
array; otherwise Go allocates a fresh zeroed array of grown capacity, copies
the window and appends — `b.Value` then no longer aliases `b.head`, and
`b.offset` is left untouched. -/
def Buffer.Append (b : Buffer) (data : List Nat) : Buffer :=
  if b.vLen + data.length ≤ b.vCap then
    { b.setBacking (storeWrite b.backing (b.vStart + b.vLen) data) with
        vLen := b.vLen + data.length }
  else
    let newLen := b.vLen + data.length
    let nc := growCap b.vCap newLen
    { b with aliased := false,
             sep := (b.window ++ data) ++ List.replicate (nc - newLen) 0,
             vStart := 0,
             vLen := newLen }

/-- Source `SliceBack(k)`: `newoffset := b.offset - k`; panics `negativeOffset`
when that is negative, then `b.Value = b.head[newoffset : b.offset+len(b.Value)]`
(a slice of `head`, hence re-aliasing), which panics `sliceBounds` when the
high index exceeds `len(b.head)`. -/
def Buffer.SliceBack (b : Buffer) (k : Nat) : Except Err Buffer :=
  if b.offset < k then
    .error .negativeOffset
  else if b.head.length < b.offset + b.vLen then
    .error .sliceBounds
  else
    .ok { b with aliased := true,
                 vStart := b.offset - k,
                 vLen := b.offset + b.vLen - (b.offset - k),
                 offset := b.offset - k }

/-- Source `Prepend(data)`: `SliceBack(len(data))` then `copy(b.Value, data)`
(copying `min(len(b.Value), len(data))` bytes to the window's front, which
lives in `head` after `SliceBack`). -/
def Buffer.Prepend (b : Buffer) (data : List Nat) : Except Err Buffer :=
  (b.SliceBack data.length).map fun b' =>
    { b' with head := storeWrite b'.head b'.vStart (data.take (min b'.vLen data.length)) }

/-- Source `Slice(from, to)`: `b.offset += from; b.Value = b.Value[from:to]`
(legal when `from ≤ to ≤ cap(b.Value)`). -/
def Buffer.Slice (b : Buffer) (f t : Nat) : Except Err Buffer :=
  if f ≤ t ∧ t ≤ b.vCap then
    .ok { b with vStart := b.vStart + f, vLen := t - f, offset := b.offset + f }
  else
    .error .sliceBounds

/-- Source `SliceFrom(from)`: `b.offset += from; b.Value = b.Value[from:]`
(legal when `from ≤ len(b.Value)`). -/
def Buffer.SliceFrom (b : Buffer) (f : Nat) : Except Err Buffer :=
  if f ≤ b.vLen then
    .ok { b with vStart := b.vStart + f, vLen := b.vLen - f, offset := b.offset + f }
  else
    .error .sliceBounds

/-- Source `Len()`: `len(b.Value)` (the nil-receiver guard is modelled on
`BufferRef` below, where released / absent buffers live). -/
def Buffer.Len (b : Buffer) : Nat := b.vLen

/-- Source `IsFull()`: `len(b.Value) == cap(b.Value)`. -/
def Buffer.IsFull (b : Buffer) : Bool := b.vLen == b.vCap

/-- Result of `Read`: `io.EOF`, or the bytes copied out plus the mutated
buffer. -/
inductive ReadResult where
  | eof
  | bytes (out : List Nat) (b : Buffer)
deriving DecidableEq, Repr

/-- Source `Read(data)` with `destCap = len(data)`: returns `io.EOF` on an empty
window; otherwise copies `min(destCap, Len)` front bytes, then `Clear`s when
the window was fully drained, else advances the window start and `offset`. -/
def Buffer.Read (b : Buffer) (destCap : Nat) : ReadResult :=
  if b.vLen = 0 then .eof
  else
    let n := min destCap b.vLen
    let out := b.window.take n
    if n = b.vLen then .bytes out b.Clear
    else .bytes out { b with vStart := b.vStart + n, vLen := b.vLen - n, offset := b.offset + n }

/-- An external byte source (`io.Reader`): when read into a destination of
capacity `c` it writes `data.take c` and reports its own outcome `fail`
(`none` = success). -/
structure Source where
  data : List Nat
  fail : Option Nat
deriving DecidableEq, Repr

/-- Source `FillFrom(reader)`: `begin := b.Len(); b.Value = b.Value[:cap(b.Value)];`
the reader writes into `b.Value[begin:]` (inside the current backing array);
on reader success the window is re-cut to `begin + nBytes`, on reader
failure `b.Value` is left at full capacity.  Returns `(nBytes, err, b')`. -/
def Buffer.FillFrom (b : Buffer) (src : Source) : Nat × Option Nat × Buffer :=
  let begin := b.vLen
  let room := b.vCap - begin
  let written := src.data.take room
  let n := written.length
  let b1 :=
    { b.setBacking (storeWrite b.backing (b.vStart + begin) written) with
        vLen := b.vCap }
  match src.fail with
  | none => (n, none, { b1 with vLen := begin + n })
  | some e => (n, some e, b1)

/-- Basic well-formedness of a live buffer state: the original store is at
least the headroom long, and the `Value` slice lies inside its backing
array.  `CreateBuffer` establishes it and every operation preserves it. -/
def Buffer.WF (b : Buffer) : Prop :=
  defaultOffset ≤ b.head.length ∧ b.vStart + b.vLen ≤ b.backing.length

instance (b : Buffer) : Decidable b.WF := by
  unfold Buffer.WF; infer_instance

/-- Observe the error of a fallible buffer operation (`none` = success);
`Except Err Buffer` itself has no decidable equality, so counterexamples are
phrased through this projection. -/
def exErr (r : Except Err Buffer) : Option Err :=
  match r with
  | .error e => some e
  | .ok _ => none

/-- Observe the resulting window of a fallible buffer operation. -/
def exWindow (r : Except Err Buffer) : Option (List Nat) :=
  match r with
  | .error _ => none
  | .ok b => some b.window

/-- Total length of a sequence of chunks. -/
def sumLens (cs : List (List Nat)) : Nat :=
  (cs.map List.length).sum

/-- Run `Prepend` on each chunk in order; a failing call aborts the fold, reporting
the panic together with the buffer state at that call (the failing
`SliceBack` panics before any write, so that state is exactly the one left
by the successful prefix). -/
def prependAll (b : Buffer) : List (List Nat) → Except (Err × Buffer) Buffer
  | [] => .ok b
  | c :: cs =>
    match b.Prepend c with
    | .ok b' => prependAll b' cs
    | .error e => .error (e, b)

/-- Observe only the error of a `prependAll` run (`none` = success). -/
def prependAllErr (b : Buffer) (cs : List (List Nat)) : Option Err :=
  match prependAll b cs with
  | .error (e, _) => some e
  | .ok _ => none

/-- Repeatedly `Read` into a destination of capacity `n`, collecting the
produced bytes; the Boolean records that the loop ended on `io.EOF`
(`EndOfData`) rather than on fuel exhaustion. -/
def drainAll : Nat → Buffer → Nat → List Nat × Bool
  | 0, _, _ => ([], false)
  | fuel + 1, b, n =>
    match b.Read n with
    | .eof => ([], true)
    | .bytes out b' =>
      let r := drainAll fuel b' n
      (out ++ r.1, r.2)

/-- The buffer after one `Read` (unchanged on `io.EOF`). -/
def drainStep (b : Buffer) (n : Nat) : Buffer :=
  match b.Read n with
  | .eof => b
  | .bytes _ b' => b'

/-- The bytes produced by one `Read` (`none` on `io.EOF`). -/
def drainOut (b : Buffer) (n : Nat) : Option (List Nat) :=
  match b.Read n with
  | .eof => none
  | .bytes out _ => some out

/-- The spec's Scenario 4 buffer: a cleared small store holding 5 bytes. -/
def scenBuf : Buffer :=
  (CreateBuffer (List.replicate 32 0)).Clear.Append [1, 2, 3, 4, 5]

/-- The reference-holding view of a Go `*Buffer` used by `Release`, `Len`
and `IsEmpty`: the three pointer-like fields that `Release` sets to `nil`
(`head`, `Value`, `pool`), each `none` once cleared.  `value` holds the
window's bytes; `pool` an identity of the owning pool. -/
structure BufferRef where
  head : Option (List Nat)
  value : Option (List Nat)
  pool : Option Nat
deriving DecidableEq, Repr

/-- Modelled from the spec: `Pool.Free(buffer)` "returns the Buffer's
BackingStore to the idle collection" (the pool implementation is not part of
this source file).  The pool state is its idle collection of backing
stores. -/
def poolFree (s : List (List Nat)) (b : BufferRef) : List (List Nat) :=
  b.head.getD [] :: s

/-- Source `Release`: first return when `b == nil` or `b.head == nil`, then
`b.pool.Free(b)` when a pool is referenced, then `head`, `Value` and `pool`
are all cleared.  The receiver may be `nil` (`none`). -/
def Release (b? : Option BufferRef) (s : List (List Nat)) :
    Option BufferRef × List (List Nat) :=
  match b? with
  | none => (none, s)
  | some b =>
    if b.head = none then (some b, s)
    else
      (some { head := none, value := none, pool := none },
       if b.pool ≠ none then poolFree s b else s)

/-- Source `Len()` on a possibly-`nil` receiver: return 0 when `b == nil`, else
return len(b.Value)` (a `nil` `Value` slice also has length 0). -/
def RefLen (b? : Option BufferRef) : Nat :=
  match b? with
  | none => 0
  | some b => (b.value.getD []).length

/-- Source `IsEmpty()`: `b.Len() == 0`. -/
def RefIsEmpty (b? : Option BufferRef) : Bool :=
  RefLen b? == 0

/-- The three pool size classes of the dispatcher. -/
inductive SizeClass where
  | small
  | medium
  | large
deriving DecidableEq, Repr

/-- Modelled from the spec: the small size-class capacity (1K; the constant
lives in the pool source, which is not under this file). -/
def SmallBufferSize : Int := 1024

/-- Modelled from the spec: the medium ("regular") size-class capacity (8K). -/
def BufferSize : Int := 8192

/-- Modelled from the spec: the large size-class capacity (64K). -/
def LargeBufferSize : Int := 65536

/-- Capacity of each size class. -/
def classCap : SizeClass → Int
  | .small => SmallBufferSize
  | .medium => BufferSize
  | .large => LargeBufferSize

/-- Source `NewBufferWithSize(size)`: fall through small → medium → large. -/
def NewBufferWithSize (size : Int) : SizeClass :=
  if size ≤ SmallBufferSize then .small
  else if size ≤ BufferSize then .medium
  else .large

/-- The aliasing invariant of claim C10: `b.Value` still points into the
original store, the `offset` field names the window start there, the window
fits inside the store, and the visible window is exactly
`head[offset : offset+Len]`. -/
def AliasInv (b : Buffer) : Prop :=
  b.aliased = true ∧
  b.offset = b.vStart ∧
  b.vStart + b.vLen ≤ b.head.length ∧
  defaultOffset ≤ b.head.length ∧
  b.window = (b.head.drop b.offset).take b.vLen

instance (b : Buffer) : Decidable (AliasInv b) := by
  unfold AliasInv; infer_instance

-- Sanity examples (claim-independent).
example : (CreateBuffer (List.replicate 32 0)).Len = 16 := by decide
example : ((CreateBuffer (List.replicate 32 0)).Clear.Append [1, 2, 3]).window = [1, 2, 3] := by
  decide
example :
    exWindow ((CreateBuffer (List.replicate 32 0)).Clear.Prepend [9, 8]) = some [9, 8] := by
  decide
example : (CreateBuffer (List.replicate 32 0)).Reset.Len = 32 := by decide

/-! ### Helper lemmas -/

theorem storeWrite_length (arr data : List Nat) (i : Nat) (h : i + data.length ≤ arr.length) :
    (storeWrite arr i data).length = arr.length := by
  simp only [storeWrite, List.length_append, List.length_take, List.length_drop]
  omega

theorem take_append_exact (A B C : List Nat) :
    (A ++ B ++ C).take (A.length + B.length) = A ++ B := by
  rw [List.append_assoc, List.take_append, List.take_left]

theorem drop_storeWrite (arr data : List Nat) (i s : Nat) (hs : s ≤ i) (hi : i ≤ arr.length) :
    (storeWrite arr i data).drop s =
      (arr.drop s).take (i - s) ++ data ++ arr.drop (i + data.length) := by
  have hlen : (arr.take i).length = i := by
    simp only [List.length_take]
    omega
  rw [storeWrite, List.append_assoc, List.drop_append_eq_append_drop, hlen,
    Nat.sub_eq_zero_of_le hs, List.drop_zero, List.drop_take, List.append_assoc]

theorem Buffer.window_length (b : Buffer) (h : b.vStart + b.vLen ≤ b.backing.length) :
    b.window.length = b.vLen := by
  simp only [Buffer.window, List.length_take, List.length_drop]
  omega

theorem Buffer.setBacking_spec (b : Buffer) (arr : List Nat)
    (hlen : arr.length = b.backing.length) :
    (b.setBacking arr).backing = arr ∧
    (b.setBacking arr).head.length = b.head.length ∧
    (b.setBacking arr).aliased = b.aliased ∧
    (b.setBacking arr).vStart = b.vStart ∧
    (b.setBacking arr).vLen = b.vLen ∧
    (b.setBacking arr).offset = b.offset := by
  by_cases hb : b.aliased <;>
    simp_all [Buffer.setBacking, Buffer.backing, hb]

theorem Buffer.Clear_WF (b : Buffer) (h : defaultOffset ≤ b.head.length) : b.Clear.WF := by
  constructor
  · exact h
  · show b.Clear.vStart + b.Clear.vLen ≤ b.Clear.backing.length
    simp only [Buffer.Clear, Buffer.backing, if_pos]
    simp only [defaultOffset] at *
    omega

/-- Characterisation of `Append` on well-formed buffers: the window gains
exactly `data` at its tail, the original store keeps its length, and
well-formedness is preserved. -/
theorem Buffer.Append_spec (b : Buffer) (d : List Nat) (h : b.WF) :
    (b.Append d).window = b.window ++ d ∧
    (b.Append d).vLen = b.vLen + d.length ∧
    (b.Append d).head.length = b.head.length ∧
    (b.Append d).WF := by
  obtain ⟨h1, h2⟩ := h
  have hwl : b.window.length = b.vLen := b.window_length h2
  by_cases hfit : b.vLen + d.length ≤ b.vCap
  · -- in-place write into the current backing array
    have hvs : b.vStart ≤ b.backing.length := by omega
    have hcap : b.vStart + b.vLen + d.length ≤ b.backing.length := by
      simp only [Buffer.vCap] at hfit
      omega
    have hsw : (storeWrite b.backing (b.vStart + b.vLen) d).length = b.backing.length :=
      storeWrite_length _ _ _ (by omega)
    obtain ⟨e1, e2, e3, e4, e5, e6⟩ :=
      b.setBacking_spec (storeWrite b.backing (b.vStart + b.vLen) d) hsw
    have hup : (b.Append d) =
        { b.setBacking (storeWrite b.backing (b.vStart + b.vLen) d) with
            vLen := b.vLen + d.length } := by
      simp only [Buffer.Append, if_pos hfit]
    have hwin : (b.Append d).window = b.window ++ d := by
      rw [hup]
      show ((b.setBacking _).backing.drop _).take _ = _
      rw [e1, e4, drop_storeWrite _ _ _ _ (Nat.le_add_right _ _) (by omega),
        Nat.add_sub_cancel_left]
      have hA : ((b.backing.drop b.vStart).take b.vLen).length = b.vLen := hwl
      rw [show b.vLen + d.length =
          ((b.backing.drop b.vStart).take b.vLen).length + d.length from by rw [hA],
        take_append_exact]
      rfl
    refine ⟨hwin, ?_, ?_, ?_⟩
    · rw [hup]
    · rw [hup]; exact e2
    · constructor
      · rw [hup]
        show defaultOffset ≤ (b.setBacking _).head.length
        rw [e2]; exact h1
      · rw [hup]
        show (b.setBacking _).vStart + (b.vLen + d.length) ≤ (b.setBacking _).backing.length
        rw [e1, e4, hsw]
        omega
  · -- growth: a fresh array re-backs the slice
    have hup : (b.Append d) =
        { b with aliased := false,
                 sep := (b.window ++ d) ++
                   List.replicate (growCap b.vCap (b.vLen + d.length) - (b.vLen + d.length)) 0,
                 vStart := 0,
                 vLen := b.vLen + d.length } := by
      simp only [Buffer.Append, if_neg hfit]
    have hgrow : b.vLen + d.length ≤ growCap b.vCap (b.vLen + d.length) :=
      Nat.le_max_left _ _
    refine ⟨?_, by rw [hup], by rw [hup], ?_⟩
    · rw [hup]
      show ((((b.window ++ d) ++ _).drop 0).take _) = _
      rw [List.drop_zero,
        show b.vLen + d.length = (b.window ++ d).length from by
          simp only [List.length_append, hwl],
        List.take_left]
    · rw [hup]
      constructor
      · exact h1
      · show 0 + (b.vLen + d.length) ≤ ((b.window ++ d) ++ _).length
        simp only [List.length_append, List.length_replicate, hwl]
        omega

/-- Characterisation of `Read` on well-formed buffers: an empty window gives
`io.EOF`; otherwise `min(destCap, Len)` front bytes come out, the window
shrinks by that amount, and on a partial drain the window start and `offset`
advance by it (an exact drain goes through `Clear`). -/
theorem Buffer.Read_spec (b : Buffer) (n : Nat) (h : b.WF) :
    (b.vLen = 0 → b.Read n = .eof) ∧
    (0 < b.vLen → ∃ b', b.Read n = .bytes (b.window.take (min n b.vLen)) b' ∧
      b'.vLen = b.vLen - min n b.vLen ∧
      b'.window = b.window.drop (min n b.vLen) ∧
      b'.WF ∧ b'.head.length = b.head.length ∧
      (min n b.vLen < b.vLen → b'.vStart = b.vStart + min n b.vLen ∧
        b'.offset = b.offset + min n b.vLen)) := by
  obtain ⟨h1, h2⟩ := h
  constructor
  · intro h0
    simp [Buffer.Read, h0]
  · intro hpos
    have hne : ¬ b.vLen = 0 := by omega
    by_cases hfull : min n b.vLen = b.vLen
    · refine ⟨b.Clear, ?_, ?_, ?_, ?_, rfl, ?_⟩
      · simp [Buffer.Read, hne, hfull]
      · show (0 : Nat) = b.vLen - min n b.vLen
        omega
      · show ((b.Clear.backing).drop b.Clear.vStart).take 0 = _
        rw [List.take_zero, hfull, ← b.window_length h2, List.drop_length]
      · exact b.Clear_WF h1
      · intro hlt
        omega
    · refine ⟨{ b with vStart := b.vStart + min n b.vLen, vLen := b.vLen - min n b.vLen, offset := b.offset + min n b.vLen }, ?_, rfl, ?_, ?_, rfl, ?_⟩
      · simp [Buffer.Read, hne, hfull]
      · show ((b.backing).drop (b.vStart + min n b.vLen)).take (b.vLen - min n b.vLen) = _
        rw [Buffer.window, List.drop_take, List.drop_drop, Nat.add_comm]
      · constructor
        · exact h1
        · show b.vStart + min n b.vLen + (b.vLen - min n b.vLen) ≤ b.backing.length
          omega
      · intro _
        exact ⟨rfl, rfl⟩

theorem drainAll_spec (fuel : Nat) :
    ∀ (b : Buffer) (n : Nat), 1 ≤ n → b.WF → b.vLen < fuel →
      drainAll fuel b n = (b.window, true) := by
  induction fuel with
  | zero =>
    intro b n _ _ hlt
    omega
  | succ fuel ih =>
    intro b n hn hwf hlt
    by_cases h0 : b.vLen = 0
    · have heof : b.Read n = .eof := (b.Read_spec n hwf).1 h0
      have hw : b.window = [] := by
        have hl := b.window_length hwf.2
        rwa [h0, List.length_eq_zero] at hl
      simp [drainAll, heof, hw]
    · obtain ⟨b', hread, hlen, hwin, hwf', _, _⟩ :=
        (b.Read_spec n hwf).2 (Nat.pos_of_ne_zero h0)
      have hb' : b'.vLen < fuel := by omega
      simp only [drainAll, hread]
      rw [ih b' n hn hwf' hb', hwin]
      simp [List.take_append_drop]

/-- A `Prepend` whose chunk fits the remaining `offset` budget succeeds,
spends exactly `len(chunk)` of it, and never changes the store's length. -/
theorem Buffer.Prepend_ok (b : Buffer) (c : List Nat)
    (h1 : c.length ≤ b.offset) (h2 : b.offset + b.vLen ≤ b.head.length) :
    ∃ b', b.Prepend c = .ok b' ∧
      b'.offset = b.offset - c.length ∧
      b'.offset + b'.vLen = b.offset + b.vLen ∧
      b'.head.length = b.head.length := by
  have hno : ¬ b.offset < c.length := by omega
  have hnb : ¬ b.head.length < b.offset + b.vLen := by omega
  unfold Buffer.Prepend Buffer.SliceBack
  rw [if_neg hno, if_neg hnb]
  simp only [Except.map]
  refine ⟨_, rfl, rfl, ?_, ?_⟩
  · show b.offset - c.length + (b.offset + b.vLen - (b.offset - c.length)) =
      b.offset + b.vLen
    omega
  · show (storeWrite b.head (b.offset - c.length) _).length = b.head.length
    apply storeWrite_length
    have hd : (c.take (min (b.offset + b.vLen - (b.offset - c.length)) c.length)).length ≤
        c.length := by
      rw [List.length_take]
      omega
    omega

/-- A `Prepend` whose chunk overdraws the `offset` budget raises the
`"Negative buffer offset."` panic before mutating anything. -/
theorem Buffer.Prepend_fail (b : Buffer) (c : List Nat) (h1 : b.offset < c.length) :
    b.Prepend c = .error .negativeOffset := by
  unfold Buffer.Prepend Buffer.SliceBack
  rw [if_pos h1]
  rfl

theorem prependAll_ok (cs : List (List Nat)) :
    ∀ b : Buffer, b.offset + b.vLen ≤ b.head.length → sumLens cs ≤ b.offset →
      ∃ b', prependAll b cs = .ok b' := by
  induction cs with
  | nil =>
    intro b _ _
    exact ⟨b, rfl⟩
  | cons c cs ih =>
    intro b h2 hs
    have hsum : sumLens (c :: cs) = c.length + sumLens cs := by
      simp [sumLens]
    obtain ⟨b', hp, ho, hs2, hhl⟩ := b.Prepend_ok c (by omega) h2
    obtain ⟨b'', hall⟩ := ih b' (by omega) (by omega)
    exact ⟨b'', by simp [prependAll, hp, hall]⟩

theorem prependAll_cross (cs : List (List Nat)) :
    ∀ b : Buffer, b.offset + b.vLen ≤ b.head.length → b.offset < sumLens cs →
      ∃ pre c suf bp, cs = pre ++ c :: suf ∧
        sumLens pre ≤ b.offset ∧ b.offset < sumLens pre + c.length ∧
        prependAll b pre = .ok bp ∧
        prependAll b cs = .error (.negativeOffset, bp) := by
  induction cs with
  | nil =>
    intro b _ hs
    simp [sumLens] at hs
  | cons c cs ih =>
    intro b h2 hs
    by_cases hc : b.offset < c.length
    · refine ⟨[], c, cs, b, rfl, ?_, ?_, rfl, ?_⟩
      · simp [sumLens]
      · simpa [sumLens] using hc
      · simp [prependAll, b.Prepend_fail c hc]
    · push_neg at hc
      obtain ⟨b', hp, ho, hs2, hhl⟩ := b.Prepend_ok c hc h2
      have hsum : sumLens (c :: cs) = c.length + sumLens cs := by
        simp [sumLens]
      obtain ⟨pre, c', suf, bp, hcs, hpre, hcross, hok, hfail⟩ :=
        ih b' (by omega) (by omega)
      have hsp : sumLens (c :: pre) = c.length + sumLens pre := by
        simp [sumLens]
      refine ⟨c :: pre, c', suf, bp, by simp [hcs], by omega, by omega, ?_, ?_⟩
      · simp [prependAll, hp, hok]
      · simp [prependAll, hp, hfail]

/-! ### Claim theorems -/

/-- Claim C1 (amended): for every buffer that has just been **Cleared**,
prepending any sequence of chunks whose total length is at most 16 bytes
always succeeds, and prepending chunks whose cumulative total exceeds 16
bytes fails with `HeadroomExhausted` (the `"Negative buffer offset."`
panic) on the chunk that crosses the budget, the failing call leaving the
buffer exactly as the successful prefix left it (no byte beyond the valid
window is modified).  After a **Reset** this does not hold: the window
already covers the whole store, so even a 1-byte prepend fails with a
slice-bounds panic (see the counterexample). -/
theorem c1_headroom_budget (container : List Nat) (cs : List (List Nat))
    (h : defaultOffset ≤ container.length) :
    (sumLens cs ≤ defaultOffset →
      ∃ b', prependAll ((CreateBuffer container).Clear) cs = .ok b') ∧
    (defaultOffset < sumLens cs →
      ∃ pre c suf bp, cs = pre ++ c :: suf ∧
        sumLens pre ≤ defaultOffset ∧ defaultOffset < sumLens pre + c.length ∧
        prependAll ((CreateBuffer container).Clear) pre = .ok bp ∧
        prependAll ((CreateBuffer container).Clear) cs = .error (.negativeOffset, bp)) := by
  have h2 : ((CreateBuffer container).Clear).offset + ((CreateBuffer container).Clear).vLen ≤
      ((CreateBuffer container).Clear).head.length := by
    show defaultOffset + 0 ≤ container.length
    omega
  constructor
  · intro hs
    exact prependAll_ok cs _ h2 hs
  · intro hs
    exact prependAll_cross cs _ h2 hs

/-- Witness for C1: two chunks totalling 3 ≤ 16 bytes prepend fine onto a
cleared 32-byte buffer. -/
theorem c1_witness :
    ∃ b', prependAll ((CreateBuffer (List.replicate 32 0)).Clear) [[1], [2, 3]] = .ok b' :=
  (c1_headroom_budget (List.replicate 32 0) [[1], [2, 3]] (by decide)).1 (by decide)

/-- Counterexample to C1 as stated: on a buffer that has just been
**Reset**, prepending a single 1-byte chunk (total 1 ≤ 16) does not
succeed — `SliceBack` computes `head[15 : 16+C]`, whose high bound exceeds
the store, so the call dies with a slice-bounds panic (not even the
`HeadroomExhausted` one). -/
theorem c1_counterexample :
    prependAllErr ((CreateBuffer (List.replicate 32 0)).Reset) [[7]] = some Err.sliceBounds ∧
    sumLens [[7]] ≤ defaultOffset := by
  decide

/-- Claim C2: for every byte sequence `data`, a cleared Buffer that `Append`s
`data` and is then drained to exhaustion by `Read`s into any destination of
positive capacity yields exactly `data`, in order, and the drain after
exhaustion reports `io.EOF` (`EndOfData`, the `true` flag). -/
theorem c2_roundtrip (container data : List Nat) (n : Nat)
    (hc : defaultOffset ≤ container.length) (hn : 1 ≤ n) :
    drainAll (data.length + 1) ((CreateBuffer container).Clear.Append data) n =
      (data, true) := by
  have hwf0 : (CreateBuffer container).Clear.WF := by
    constructor
    · exact hc
    · show defaultOffset + 0 ≤ container.length
      omega
  obtain ⟨hw, hl, _, hwf1⟩ := (CreateBuffer container).Clear.Append_spec data hwf0
  have hl0 : (CreateBuffer container).Clear.vLen = 0 := rfl
  have hw0 : (CreateBuffer container).Clear.window = [] := by
    simp [Buffer.window, hl0]
  have hlt : ((CreateBuffer container).Clear.Append data).vLen < data.length + 1 := by
    omega
  rw [drainAll_spec (data.length + 1) _ n hn hwf1 hlt, hw, hw0, List.nil_append]

/-- Witness for C2 at a concrete buffer and payload. -/
theorem c2_witness :
    drainAll 4 ((CreateBuffer (List.replicate 32 0)).Clear.Append [9, 8, 7]) 2 =
      ([9, 8, 7], true) :=
  c2_roundtrip (List.replicate 32 0) [9, 8, 7] 2 (by decide) (by decide)

/-- Claim C3: `Release` on a live Buffer clears all three references (backing
store, window, pool), hands the store to the pool exactly when one is
referenced, and a second `Release` on the already-released Buffer is a
no-op: it returns the very same state and pool free-list, so the store is
not returned to the pool twice.  (`Pool.Free` itself is modelled from the
spec, but the idempotence rests only on the `b.head == nil` guard, which is
in the source.) -/
theorem c3_release_idempotent (b : BufferRef) (s : List (List Nat))
    (h : ¬ b.head = none) :
    (Release (some b) s).1 = some ⟨none, none, none⟩ ∧
    (¬ b.pool = none → (Release (some b) s).2 = poolFree s b) ∧
    (b.pool = none → (Release (some b) s).2 = s) ∧
    Release (Release (some b) s).1 (Release (some b) s).2 = Release (some b) s := by
  refine ⟨?_, ?_, ?_, ?_⟩
  · simp [Release, h]
  · intro hp
    simp [Release, h, hp]
  · intro hp
    simp [Release, h, hp]
  · simp [Release, h]

/-- Witness for C3 at a concrete pooled buffer. -/
theorem c3_witness :
    (Release (some (⟨some [1, 2, 3], some [2, 3], some 0⟩ : BufferRef)) []).1 =
      some ⟨none, none, none⟩ :=
  (c3_release_idempotent ⟨some [1, 2, 3], some [2, 3], some 0⟩ [] (by decide)).1

/-- Claim C9: the length and release operations are total on absent buffers —
`Len()` on a `nil` Buffer returns 0 (so `IsEmpty()` is true), and
`Release` on a `nil` Buffer returns without touching anything, for every
pool state. -/
theorem c9_nil_safety :
    RefLen none = 0 ∧ RefIsEmpty none = true ∧
    ∀ s : List (List Nat), Release none s = (none, s) :=
  ⟨rfl, rfl, fun _ => rfl⟩

/-- Claim C4 (amended): `Reset` resets the window to the full BackingStore —
the window start becomes 0 and the window length the full backing capacity
`C`, so `Len() == C` afterwards, and `Slice` then behaves as if the start
were 0.  However the `offset` field is set to `H = 16`, not 0, so
`SliceBack` does **not** behave as if the start were 0: any `SliceBack`
within the nominal budget dies with a slice-bounds panic
(`head[16-k : 16+C]` overruns the store). -/
theorem c4_reset (b : Buffer) :
    b.Reset.vStart = 0 ∧
    b.Reset.vLen = b.head.length ∧
    b.Reset.Len = b.head.length ∧
    b.Reset.window = b.head ∧
    b.Reset.offset = defaultOffset ∧
    (∀ f t, f ≤ t → t ≤ b.head.length →
      ∃ b', b.Reset.Slice f t = .ok b' ∧ b'.window = (b.head.drop f).take (t - f)) ∧
    (∀ k, k ≤ defaultOffset → b.Reset.SliceBack k = .error .sliceBounds) := by
  refine ⟨rfl, rfl, rfl, ?_, rfl, ?_, ?_⟩
  · show ((b.Reset.backing).drop 0).take b.head.length = b.head
    simp [Buffer.Reset, Buffer.backing]
  · intro f t hft htl
    have hcap : t ≤ b.Reset.vCap := by
      show t ≤ b.Reset.backing.length - b.Reset.vStart
      simp [Buffer.Reset, Buffer.backing]
      omega
    have hS : b.Reset.Slice f t = .ok
        { b.Reset with
          vStart := b.Reset.vStart + f
          vLen := t - f
          offset := b.Reset.offset + f } := by
      unfold Buffer.Slice
      rw [if_pos ⟨hft, hcap⟩]
    refine ⟨_, hS, ?_⟩
    show (({ b.Reset with
        vStart := b.Reset.vStart + f
        vLen := t - f
        offset := b.Reset.offset + f }).backing.drop (b.Reset.vStart + f)).take (t - f) =
      (b.head.drop f).take (t - f)
    simp [Buffer.Reset, Buffer.backing]
  · intro k hk
    unfold Buffer.SliceBack
    rw [if_neg, if_pos]
    · show b.Reset.head.length < b.Reset.offset + b.Reset.vLen
      simp [Buffer.Reset, defaultOffset]
    · show ¬ b.Reset.offset < k
      simp only [Buffer.Reset]
      omega

/-- Witness for C4 (amended) at a concrete buffer: a `Slice` after `Reset`
acts on the store as if the start were 0. -/
theorem c4_witness :
    ∃ b', (CreateBuffer (List.replicate 32 0)).Reset.Slice 4 10 = .ok b' ∧
      b'.window = (((CreateBuffer (List.replicate 32 0)).head).drop 4).take (10 - 4) :=
  (c4_reset (CreateBuffer (List.replicate 32 0))).2.2.2.2.2.1 4 10 (by decide) (by decide)

/-- Counterexample to C4 as stated: after `Reset`, `SliceBack` does not
behave as if the window start were 0 — the `offset` field holds 16, and
`SliceBack 1` dies with a slice-bounds panic instead of the
`HeadroomExhausted` (negative-offset) panic that start-0 semantics would
produce. -/
theorem c4_counterexample :
    (CreateBuffer (List.replicate 32 0)).Reset.offset = defaultOffset ∧
    exErr ((CreateBuffer (List.replicate 32 0)).Reset.SliceBack 1) = some Err.sliceBounds ∧
    Err.sliceBounds ≠ Err.negativeOffset := by
  decide

/-- Claim C5: draining a well-formed Buffer holding `L` bytes into a
destination of capacity `n` returns `min(n, L)` bytes taken from the front
of the window and shrinks the window by that amount — on a partial drain
the window start and `offset` advance by it (an exact drain empties the
window through `Clear`); draining an empty window returns `io.EOF`
(`EndOfData`), a signal distinct from an error.  In particular, from 5 held
bytes a 3-byte drain returns 3 and leaves 2, a further drain returns those
2, and a further drain returns `EndOfData`. -/
theorem c5_read_drain (b : Buffer) (n : Nat) (h : b.WF) :
    (b.vLen = 0 → b.Read n = .eof) ∧
    (0 < b.vLen → ∃ b', b.Read n = .bytes (b.window.take (min n b.vLen)) b' ∧
      b'.vLen = b.vLen - min n b.vLen ∧
      b'.window = b.window.drop (min n b.vLen) ∧
      (min n b.vLen < b.vLen → b'.vStart = b.vStart + min n b.vLen ∧
        b'.offset = b.offset + min n b.vLen)) ∧
    (drainOut scenBuf 3 = some [1, 2, 3] ∧
     drainOut (drainStep scenBuf 3) 3 = some [4, 5] ∧
     drainOut (drainStep (drainStep scenBuf 3) 3) 3 = none) := by
  obtain ⟨he, hb⟩ := b.Read_spec n h
  refine ⟨he, ?_, by decide⟩
  intro hpos
  obtain ⟨b', hread, hlen, hwin, _, _, hadv⟩ := hb hpos
  exact ⟨b', hread, hlen, hwin, hadv⟩

/-- Witness for C5: the spec's Scenario 4 on a concrete buffer. -/
theorem c5_witness :
    drainOut scenBuf 3 = some [1, 2, 3] ∧
    drainOut (drainStep scenBuf 3) 3 = some [4, 5] ∧
    drainOut (drainStep (drainStep scenBuf 3) 3) 3 = none :=
  (c5_read_drain scenBuf 3 (by decide)).2.2

theorem Buffer.window_setVLen (b : Buffer) (m : Nat) :
    ({ b with vLen := m } : Buffer).window = (b.backing.drop b.vStart).take m := rfl

/-- Claim C6: `FillFrom` reads from the external source into the unused tail
capacity of the backing store beyond the current window end, growing the
window's logical length by exactly the number of bytes read while
preserving every already-present window byte; a source failure is
propagated unchanged, and the already-present window content is still the
front of the (then capacity-wide) window. -/
theorem c6_fillFrom (b : Buffer) (src : Source) (h : b.WF) :
    (b.FillFrom src).2.1 = src.fail ∧
    (src.fail = none →
      (b.FillFrom src).2.2.vLen = b.vLen + (b.FillFrom src).1 ∧
      (b.FillFrom src).2.2.window = b.window ++ src.data.take (b.vCap - b.vLen)) ∧
    (¬ src.fail = none → ((b.FillFrom src).2.2.window).take b.vLen = b.window) := by
  obtain ⟨h1, h2⟩ := h
  have hvc : b.vCap = b.backing.length - b.vStart := rfl
  have hwlen : (src.data.take (b.vCap - b.vLen)).length ≤ b.vCap - b.vLen := by
    rw [List.length_take]
    omega
  have hbound : b.vStart + b.vLen + (src.data.take (b.vCap - b.vLen)).length ≤
      b.backing.length := by
    omega
  have hsw : (storeWrite b.backing (b.vStart + b.vLen) (src.data.take (b.vCap - b.vLen))).length =
      b.backing.length :=
    storeWrite_length _ _ _ hbound
  obtain ⟨e1, e2, e3, e4, e5, e6⟩ := b.setBacking_spec _ hsw
  have hA : ((b.backing.drop b.vStart).take b.vLen).length = b.vLen := by
    rw [List.length_take, List.length_drop]
    omega
  have hws : (({ b.setBacking
        (storeWrite b.backing (b.vStart + b.vLen) (src.data.take (b.vCap - b.vLen))) with
      vLen := b.vLen + (src.data.take (b.vCap - b.vLen)).length } : Buffer)).window =
      b.window ++ src.data.take (b.vCap - b.vLen) := by
    rw [Buffer.window_setVLen, e1, e4,
      drop_storeWrite _ _ _ _ (Nat.le_add_right _ _) (by omega), Nat.add_sub_cancel_left,
      show b.vLen + (src.data.take (b.vCap - b.vLen)).length =
        ((b.backing.drop b.vStart).take b.vLen).length +
          (src.data.take (b.vCap - b.vLen)).length from by rw [hA],
      take_append_exact]
    rfl
  have hwf2 : ((({ b.setBacking
        (storeWrite b.backing (b.vStart + b.vLen) (src.data.take (b.vCap - b.vLen))) with
      vLen := b.vCap } : Buffer)).window).take b.vLen = b.window := by
    rw [Buffer.window_setVLen, e1, e4,
      drop_storeWrite _ _ _ _ (Nat.le_add_right _ _) (by omega), Nat.add_sub_cancel_left,
      List.take_take,
      show min b.vLen b.vCap = b.vLen from by omega,
      List.append_assoc,
      List.take_left' hA]
    rfl
  refine ⟨?_, ?_, ?_⟩
  · cases hf : src.fail <;> simp [Buffer.FillFrom, hf]
  · intro hf
    refine ⟨?_, ?_⟩
    · simp [Buffer.FillFrom, hf]
    · simp only [Buffer.FillFrom, hf]
      exact hws
  · intro hf
    cases hsf : src.fail with
    | none => exact absurd hsf hf
    | some e =>
      simp only [Buffer.FillFrom, hsf]
      exact hwf2

/-- Witness for C6: a 3-byte source fills a cleared 32-byte buffer. -/
theorem c6_witness :
    (((CreateBuffer (List.replicate 32 0)).Clear.FillFrom ⟨[5, 6, 7], none⟩).2.2).window =
      (CreateBuffer (List.replicate 32 0)).Clear.window ++
        ([5, 6, 7] : List Nat).take ((CreateBuffer (List.replicate 32 0)).Clear.vCap - 0) :=
  ((c6_fillFrom (CreateBuffer (List.replicate 32 0)).Clear ⟨[5, 6, 7], none⟩
    (by decide)).2.1 rfl).2

/-- Claim C7 (amended): `IsFull` returns true exactly when the window's end
reaches the end of the array currently backing `b.Value`
(`len(b.Value) == cap(b.Value)`, i.e. `start + len = backing length`) —
no tail room left to grow into without reallocation.  This coincides with
"window length equals the BackingStore's capacity" only when the window
start is 0 (see the counterexample). -/
theorem c7_isFull (b : Buffer) (h : b.WF) :
    b.IsFull = true ↔ b.vStart + b.vLen = b.backing.length := by
  obtain ⟨h1, h2⟩ := h
  have hvc : b.vCap = b.backing.length - b.vStart := rfl
  simp only [Buffer.IsFull, beq_iff_eq]
  omega

/-- Witness for C7 (amended): a cleared 32-byte buffer filled to its tail is
full. -/
theorem c7_witness :
    ((CreateBuffer (List.replicate 32 0)).Clear.Append (List.replicate 16 1)).IsFull = true :=
  (c7_isFull ((CreateBuffer (List.replicate 32 0)).Clear.Append (List.replicate 16 1))
    (by decide)).2 (by decide)

/-- Counterexample to C7 as stated: a cleared 32-byte store with 16 appended
bytes reports `IsFull`, yet the window length 16 is not the BackingStore's
capacity 32 — `IsFull` compares against `cap(b.Value)`, not `C`. -/
theorem c7_counterexample :
    ((CreateBuffer (List.replicate 32 0)).Clear.Append (List.replicate 16 1)).IsFull = true ∧
    ((CreateBuffer (List.replicate 32 0)).Clear.Append (List.replicate 16 1)).Len = 16 ∧
    ((CreateBuffer (List.replicate 32 0)).Clear.Append (List.replicate 16 1)).head.length = 32 ∧
    (16 : Nat) ≠ 32 := by
  decide

/-- Claim C8: the size-class dispatcher returns a Buffer from the smallest of
the three size classes whose capacity covers the requested size, falling
through small → medium → large: a size not exceeding the small capacity
yields a small-class Buffer, a size not exceeding the medium capacity a
medium-class one, and any larger size a large-class one (that class is also
minimal among the covering classes whenever one covers the size at all). -/
theorem c8_dispatch (size : Int) :
    (size ≤ SmallBufferSize → NewBufferWithSize size = .small) ∧
    (SmallBufferSize < size → size ≤ BufferSize → NewBufferWithSize size = .medium) ∧
    (BufferSize < size → NewBufferWithSize size = .large) ∧
    (size ≤ LargeBufferSize → size ≤ classCap (NewBufferWithSize size)) ∧
    (∀ cl, size ≤ classCap cl → classCap (NewBufferWithSize size) ≤ classCap cl) := by
  have hs : SmallBufferSize = 1024 := rfl
  have hb : BufferSize = 8192 := rfl
  have hl : LargeBufferSize = 65536 := rfl
  refine ⟨?_, ?_, ?_, ?_, ?_⟩
  · intro h1
    simp [NewBufferWithSize, h1]
  · intro h1 h2
    have h3 : ¬ size ≤ SmallBufferSize := by omega
    simp [NewBufferWithSize, h3, h2]
  · intro h1
    have h2 : ¬ size ≤ SmallBufferSize := by omega
    have h3 : ¬ size ≤ BufferSize := by omega
    simp [NewBufferWithSize, h2, h3]
  · intro h1
    by_cases h2 : size ≤ SmallBufferSize
    · simp [NewBufferWithSize, h2, classCap]
    · by_cases h3 : size ≤ BufferSize
      · simp [NewBufferWithSize, h2, h3, classCap]
      · simp only [NewBufferWithSize, if_neg h2, if_neg h3, classCap]
        omega
  · intro cl hcl
    have hcs : classCap SizeClass.small = SmallBufferSize := rfl
    have hcm : classCap SizeClass.medium = BufferSize := rfl
    have hcg : classCap SizeClass.large = LargeBufferSize := rfl
    cases cl <;> by_cases h2 : size ≤ SmallBufferSize <;> by_cases h3 : size ≤ BufferSize <;>
      simp only [NewBufferWithSize, h2, h3, if_true, if_false] <;>
      omega

/-- Witness for C8: a 500-byte request is served from the small class. -/
theorem c8_witness : NewBufferWithSize 500 = SizeClass.small :=
  (c8_dispatch 500).1 (by decide)

/-- A successful `SliceBack` happened within the offset budget and inside
the store, and its result is the re-aliased window record. -/
theorem Buffer.SliceBack_ok (b : Buffer) (k : Nat) (b' : Buffer)
    (h : b.SliceBack k = .ok b') :
    k ≤ b.offset ∧ b.offset + b.vLen ≤ b.head.length ∧
    b' = { b with
      aliased := true
      vStart := b.offset - k
      vLen := b.offset + b.vLen - (b.offset - k)
      offset := b.offset - k } := by
  unfold Buffer.SliceBack at h
  by_cases h1 : b.offset < k
  · rw [if_pos h1] at h
    exact absurd h (by simp)
  · rw [if_neg h1] at h
    by_cases h2 : b.head.length < b.offset + b.vLen
    · rw [if_pos h2] at h
      exact absurd h (by simp)
    · rw [if_neg h2] at h
      refine ⟨by omega, by omega, ?_⟩
      injection h with h
      exact h.symm

/-- The invariant `AliasInv` follows from its four field facts (the window equation is
definitional once the slice aliases `head` at `offset`). -/
theorem AliasInv_mk (b : Buffer) (h1 : b.aliased = true) (h2 : b.offset = b.vStart)
    (h3 : b.vStart + b.vLen ≤ b.head.length) (h4 : defaultOffset ≤ b.head.length) :
    AliasInv b := by
  refine ⟨h1, h2, h3, h4, ?_⟩
  simp [Buffer.window, Buffer.backing, h1, h2]

/-- Claim C10: starting from a freshly created or cleared Buffer, as long as no
append grows the window beyond the backing store's remaining capacity,
every operation (`Append`, `Prepend`, `Slice`, `SliceFrom`, `SliceBack`,
`Clear`, `Read`) preserves the invariant that the visible window is exactly
`head[offset : offset+Len]` of the original BackingStore; an append that
exceeds that capacity re-backs the window with a new store (the slice no
longer aliases `head`), while a subsequent successful `SliceBack` still
addresses the original store. -/
theorem c10_alias_invariant :
    (∀ c : List Nat, defaultOffset ≤ c.length → AliasInv (CreateBuffer c)) ∧
    (∀ b : Buffer, AliasInv b → AliasInv b.Clear) ∧
    (∀ b : Buffer, ∀ d : List Nat, AliasInv b → b.vLen + d.length ≤ b.vCap →
      AliasInv (b.Append d)) ∧
    (∀ b : Buffer, ∀ d : List Nat, ∀ b' : Buffer, AliasInv b → b.Prepend d = .ok b' →
      AliasInv b') ∧
    (∀ b : Buffer, ∀ k : Nat, ∀ b' : Buffer, AliasInv b → b.SliceBack k = .ok b' →
      AliasInv b') ∧
    (∀ b : Buffer, ∀ f t : Nat, ∀ b' : Buffer, AliasInv b → b.Slice f t = .ok b' →
      AliasInv b') ∧
    (∀ b : Buffer, ∀ f : Nat, ∀ b' : Buffer, AliasInv b → b.SliceFrom f = .ok b' →
      AliasInv b') ∧
    (∀ b : Buffer, ∀ n : Nat, ∀ out : List Nat, ∀ b' : Buffer, AliasInv b →
      b.Read n = .bytes out b' → AliasInv b') ∧
    (∀ b : Buffer, ∀ d : List Nat, AliasInv b → b.vCap < b.vLen + d.length →
      (b.Append d).aliased = false) ∧
    (∀ b : Buffer, ∀ k : Nat, ∀ b' : Buffer, b.aliased = false → b.SliceBack k = .ok b' →
      b'.aliased = true ∧ b'.head = b.head) := by
  refine ⟨?_, ?_, ?_, ?_, ?_, ?_, ?_, ?_, ?_, ?_⟩
  · -- CreateBuffer establishes the invariant
    intro c h
    refine AliasInv_mk _ rfl rfl ?_ h
    show defaultOffset + (c.length - defaultOffset) ≤ c.length
    omega
  · -- Clear
    intro b inv
    obtain ⟨_, _, _, a4, _⟩ := inv
    refine AliasInv_mk _ rfl rfl ?_ a4
    show defaultOffset + 0 ≤ b.head.length
    omega
  · -- Append without growth
    intro b d inv hfit
    obtain ⟨a1, a2, a3, a4, _⟩ := inv
    have hback : b.backing = b.head := by
      simp [Buffer.backing, a1]
    have hbl : b.backing.length = b.head.length := by
      rw [hback]
    have hvc : b.vCap = b.backing.length - b.vStart := rfl
    have hsw : (storeWrite b.backing (b.vStart + b.vLen) d).length = b.backing.length :=
      storeWrite_length _ _ _ (by omega)
    obtain ⟨e1, e2, e3, e4, e5, e6⟩ := b.setBacking_spec _ hsw
    have hup : b.Append d =
        { b.setBacking (storeWrite b.backing (b.vStart + b.vLen) d) with
            vLen := b.vLen + d.length } := by
      simp only [Buffer.Append, if_pos hfit]
    apply AliasInv_mk
    · rw [hup]
      show (b.setBacking _).aliased = true
      rw [e3, a1]
    · rw [hup]
      show (b.setBacking _).offset = (b.setBacking _).vStart
      rw [e6, e4, a2]
    · rw [hup]
      show (b.setBacking _).vStart + (b.vLen + d.length) ≤ (b.setBacking _).head.length
      rw [e4, e2]
      omega
    · rw [hup]
      show defaultOffset ≤ (b.setBacking _).head.length
      rw [e2]
      exact a4
  · -- Prepend
    intro b d b' inv hok
    obtain ⟨a1, a2, a3, a4, _⟩ := inv
    unfold Buffer.Prepend at hok
    cases hsb : b.SliceBack d.length with
    | error e =>
      rw [hsb] at hok
      simp [Except.map] at hok
    | ok sb =>
      rw [hsb] at hok
      simp only [Except.map, Except.ok.injEq] at hok
      obtain ⟨hk, hbd, hsbeq⟩ := b.SliceBack_ok d.length sb hsb
      subst hsbeq
      subst hok
      have hd : (d.take (min (b.offset + b.vLen - (b.offset - d.length)) d.length)).length ≤
          d.length := by
        rw [List.length_take]
        omega
      have hb2 : b.offset - d.length +
          (d.take (min (b.offset + b.vLen - (b.offset - d.length)) d.length)).length ≤
          b.head.length := by
        omega
      apply AliasInv_mk
      · rfl
      · rfl
      · show b.offset - d.length + (b.offset + b.vLen - (b.offset - d.length)) ≤
          (storeWrite b.head (b.offset - d.length)
            (d.take (min (b.offset + b.vLen - (b.offset - d.length)) d.length))).length
        rw [storeWrite_length _ _ _ hb2]
        omega
      · show defaultOffset ≤
          (storeWrite b.head (b.offset - d.length)
            (d.take (min (b.offset + b.vLen - (b.offset - d.length)) d.length))).length
        rw [storeWrite_length _ _ _ hb2]
        exact a4
  · -- SliceBack
    intro b k b' inv hok
    obtain ⟨a1, a2, a3, a4, _⟩ := inv
    obtain ⟨hk, hbd, hb'⟩ := b.SliceBack_ok k b' hok
    subst hb'
    refine AliasInv_mk _ rfl rfl ?_ a4
    show b.offset - k + (b.offset + b.vLen - (b.offset - k)) ≤ b.head.length
    omega
  · -- Slice
    intro b f t b' inv hok
    obtain ⟨a1, a2, a3, a4, _⟩ := inv
    have hback : b.backing = b.head := by
      simp [Buffer.backing, a1]
    have hbl : b.backing.length = b.head.length := by
      rw [hback]
    have hvc : b.vCap = b.backing.length - b.vStart := rfl
    unfold Buffer.Slice at hok
    by_cases hc : f ≤ t ∧ t ≤ b.vCap
    · rw [if_pos hc] at hok
      injection hok with hok
      subst hok
      obtain ⟨hft, htc⟩ := hc
      refine AliasInv_mk _ a1 ?_ ?_ a4
      · show b.offset + f = b.vStart + f
        omega
      · show b.vStart + f + (t - f) ≤ b.head.length
        omega
    · rw [if_neg hc] at hok
      exact absurd hok (by simp)
  · -- SliceFrom
    intro b f b' inv hok
    obtain ⟨a1, a2, a3, a4, _⟩ := inv
    unfold Buffer.SliceFrom at hok
    by_cases hc : f ≤ b.vLen
    · rw [if_pos hc] at hok
      injection hok with hok
      subst hok
      refine AliasInv_mk _ a1 ?_ ?_ a4
      · show b.offset + f = b.vStart + f
        omega
      · show b.vStart + f + (b.vLen - f) ≤ b.head.length
        omega
    · rw [if_neg hc] at hok
      exact absurd hok (by simp)
  · -- Read
    intro b n out b' inv hok
    obtain ⟨a1, a2, a3, a4, _⟩ := inv
    by_cases h0 : b.vLen = 0
    · have : b.Read n = .eof := by
        simp [Buffer.Read, h0]
      rw [this] at hok
      exact absurd hok (by simp)
    · by_cases hfull : min n b.vLen = b.vLen
      · have hred : b.Read n = .bytes (b.window.take (min n b.vLen)) b.Clear := by
          simp [Buffer.Read, h0, hfull]
        rw [hred] at hok
        injection hok with h1 h2
        subst h2
        refine AliasInv_mk _ rfl rfl ?_ a4
        show defaultOffset + 0 ≤ b.head.length
        omega
      · have hred : b.Read n = .bytes (b.window.take (min n b.vLen))
            { b with
              vStart := b.vStart + min n b.vLen
              vLen := b.vLen - min n b.vLen
              offset := b.offset + min n b.vLen } := by
          simp [Buffer.Read, h0, hfull]
        rw [hred] at hok
        injection hok with h1 h2
        subst h2
        refine AliasInv_mk _ a1 ?_ ?_ a4
        · show b.offset + min n b.vLen = b.vStart + min n b.vLen
          omega
        · show b.vStart + min n b.vLen + (b.vLen - min n b.vLen) ≤ b.head.length
          omega
  · -- an overflowing Append re-backs the slice
    intro b d inv hlt
    have hnf : ¬ (b.vLen + d.length ≤ b.vCap) := by omega
    simp [Buffer.Append, hnf]
  · -- SliceBack after growth re-aliases the original store
    intro b k b' hal hok
    obtain ⟨_, _, hb'⟩ := b.SliceBack_ok k b' hok
    subst hb'
    exact ⟨rfl, rfl⟩

/-- Witness for C10: the invariant holds of a freshly created buffer. -/
theorem c10_witness : AliasInv (CreateBuffer (List.replicate 32 0)) :=
  c10_alias_invariant.1 (List.replicate 32 0) (by decide)
